import Mathlib

/-!
Shallow embedding of the grocery-list backend's `src/main.rs` (binary crate
`gl`): environment configuration, the static/SPA fallback handler and
`index.html` templating, the health-check handler, the demo-reset procedure
`reset_database` over an abstract SQLite state, and the background reset
scheduler `spawn_database_reset_task`.
-/

namespace Gl

/-! ## Model of Rust `str::replace` (all non-overlapping matches, left to right)

`replaceAux pat rep l k` scans `l`; the counter `k` skips over the characters
of a match that was already consumed, so the recursion is structural in `l`. -/

def replaceAux (pat rep : List Char) : List Char → Nat → List Char
  | [], _ => []
  | _ :: cs, k + 1 => replaceAux pat rep cs k
  | c :: cs, 0 =>
    if pat ≠ [] ∧ pat <+: c :: cs then
      rep ++ replaceAux pat rep cs (pat.length - 1)
    else
      c :: replaceAux pat rep cs 0

/-- Model of Rust `String::replace(&self, from, to)`. -/
def replaceAll (s pat rep : String) : String :=
  ⟨replaceAux pat.data rep.data s.data 0⟩

/-! ## Environment configuration (`main`, lines 52–58)

The process environment is a partial map from variable names to values. -/

abbrev EnvMap : Type := String → Option String

/-- Model of Rust `str::parse::<bool>`: only the exact strings
`"true"`/`"false"` parse. -/
def parseBool (s : String) : Option Bool :=
  if s = "true" then some true else if s = "false" then some false else none

/-- Model of `env::var("DATABASE_URL").unwrap_or_else(|_| "sqlite:grocery.db".to_string())` -/
def database_url (env : EnvMap) : String :=
  (env "DATABASE_URL").getD "sqlite:grocery.db"

/-- Model of `env::var("PORT").unwrap_or_else(|_| "3001".to_string())` -/
def port (env : EnvMap) : String :=
  (env "PORT").getD "3001"

/-- Model of `std::env::var("GL_DEMO").unwrap_or_else(|_| "false".to_string()).parse::<bool>().unwrap_or(false)` -/
def is_demo (env : EnvMap) : Bool :=
  (parseBool ((env "GL_DEMO").getD "false")).getD false

/-- Model of Rust `bool`'s `Display`/`to_string`. -/
def boolString (b : Bool) : String := if b then "true" else "false"

/-! ## Static serving and SPA fallback (`static_handler`, `index_html`, `not_found`) -/

/-- Model of `static INDEX_HTML: &str = "index.html";` -/
def INDEX_HTML : String := "index.html"

/-- The embedded asset bundle (`rust_embed` over `./ts/dist`), abstracted as a
partial map from asset path to file contents. -/
abbrev AssetMap : Type := String → Option String

/-- An HTTP response as built by the three handlers: a raw asset with an
explicit content type, an `Html(...)` page, or the 404 response. -/
inductive Resp
  | asset (contentType : String) (data : String)
  | html (body : String)
  | notFound
deriving DecidableEq

/-- The response body the client receives (the 404 handler's body is `"404"`). -/
def Resp.bodyText : Resp → String
  | .asset _ d => d
  | .html b => b
  | .notFound => "404"

/-- Model of `async fn not_found() -> Response` -/
def not_found : Resp := .notFound

/-- Model of `async fn index_html() -> Response`: fetch the embedded `index.html`,
re-read the demo flag from the environment, substitute `__IS_DEMO__`. -/
def index_html (env : EnvMap) (assets : AssetMap) : Resp :=
  match assets INDEX_HTML with
  | some template =>
      .html (replaceAll template "__IS_DEMO__" (boolString (is_demo env)))
  | none => not_found

/-- Rust `str::contains('.')`: whether the path has a dot anywhere. -/
def containsChar (s : String) (c : Char) : Bool := s.data.contains c

/-- Model of `uri.path().trim_start_matches('/')` -/
def trimLeadingSlashes (s : String) : String :=
  ⟨s.data.dropWhile (fun c => c == '/')⟩

/-- Model of `async fn static_handler(uri: Uri)`. `mimeGuess` abstracts
`mime_guess::from_path(path).first_or_octet_stream()`. -/
def static_handler (env : EnvMap) (assets : AssetMap) (mimeGuess : String → String)
    (rawPath : String) : Resp :=
  let path := trimLeadingSlashes rawPath
  if path = "" ∨ path = INDEX_HTML then index_html env assets
  else
    match assets path with
    | some content => .asset (mimeGuess path) content
    | none => if containsChar path '.' then not_found else index_html env assets

/-! ## Demo reset (`reset_database`, lines 153–202)

The SQLite state visible to `reset_database` is the list of tables of the
main schema, in `sqlite_master` order: each table is its name paired with its
rows (a row is a list of column values).  The attached snapshot database
(`demo` schema) is a second such list.  Failures of the storage engine are
injected through an oracle `fail : Step → Bool`; statements that enumerate or
mutate tables can additionally fail deterministically (a missing snapshot
table makes the corresponding `INSERT ... SELECT` fail). -/

abbrev Row : Type := List String

abbrev Tables : Type := List (String × List Row)

/-- Rows of table `n` (SQLite resolves a name to its first `sqlite_master`
entry; names are unique in a real schema). -/
def getRows : Tables → String → List Row
  | [], _ => []
  | (m, rs) :: rest, n => if m = n then rs else getRows rest n

/-- Replace the rows of table `n`, leaving the schema unchanged. -/
def setRows : Tables → String → List Row → Tables
  | [], _, _ => []
  | (m, rs) :: rest, n, new =>
      if m = n then (m, new) :: rest else (m, rs) :: setRows rest n new

/-- Whether the schema has a table named `n`. -/
def hasTable (ts : Tables) (n : String) : Prop := n ∈ ts.map Prod.fst

instance (ts : Tables) (n : String) : Decidable (hasTable ts n) :=
  inferInstanceAs (Decidable (n ∈ ts.map Prod.fst))

/-- ASCII case folding, as SQLite's `LIKE` applies to its operands. -/
def likeFoldChar (c : Char) : Char :=
  if 'A' ≤ c ∧ c ≤ 'Z' then Char.ofNat (c.toNat + 32) else c

/-- Matching of the SQL pattern for engine tables (case-insensitive `LIKE`):
six literal characters `sqlite`, then a wildcard matching exactly one
character, then a wildcard matching any tail. -/
def likeSqlitePattern (n : String) : Bool :=
  decide (7 ≤ n.data.length) && decide ((n.data.take 6).map likeFoldChar = "sqlite".data)

/-- Model of the `sqlite_master` enumeration query: the user tables of the
main schema, in schema order, excluding names that match the engine pattern. -/
def userTableNames (ts : Tables) : List String :=
  (ts.map Prod.fst).filter (fun n => ! likeSqlitePattern n)

/-- A SQL statement as handed to `sqlx::query`: its text and the values bound
to its `?` placeholders. -/
structure SqlStmt where
  text : String
  binds : List String
deriving DecidableEq

/-- Model of `sqlx::query("ATTACH DATABASE ? AS demo").bind(demo_db_path.to_str().unwrap())` -/
def attachStmt (demoPath : String) : SqlStmt :=
  ⟨"ATTACH DATABASE ? AS demo", [demoPath]⟩

/-- The `sqlite_master` enumeration query (no bound values). -/
def enumerateStmt : SqlStmt :=
  ⟨"SELECT name FROM sqlite_master WHERE type=\x27table\x27 AND name NOT LIKE \x27sqlite_%\x27", []⟩

/-- Model of `format!("DELETE FROM main.{}", table_name)` -/
def deleteStmt (tableName : String) : SqlStmt :=
  ⟨"DELETE FROM main." ++ tableName, []⟩

/-- Model of `format!("INSERT INTO main.{} SELECT * FROM demo.{}", table_name, table_name)` -/
def insertStmt (tableName : String) : SqlStmt :=
  ⟨"INSERT INTO main." ++ tableName ++ " SELECT * FROM demo." ++ tableName, []⟩

/-- Model of `sqlx::query("DETACH DATABASE demo")` -/
def detachStmt : SqlStmt := ⟨"DETACH DATABASE demo", []⟩

/-- Model of `sqlx::query("VACUUM")` -/
def vacuumStmt : SqlStmt := ⟨"VACUUM", []⟩

/-- The engine-level steps of one `reset_database` run, used to index injected
failures and to report which step an error came from. -/
inductive Step
  | attach
  | enumerate
  | beginTx
  | del (tableName : String)
  | ins (tableName : String)
  | commitTx
  | detach
  | vacuum
deriving DecidableEq

instance {ε α : Type} [DecidableEq ε] [DecidableEq α] : DecidableEq (Except ε α)
  | .ok a, .ok b => decidable_of_iff (a = b) (by simp)
  | .ok _, .error _ => isFalse (by simp)
  | .error _, .ok _ => isFalse (by simp)
  | .error a, .error b => decidable_of_iff (a = b) (by simp)

/-- What `reset_database` sends to the connection, in order: SQL statements
via `sqlx::query`, plus the transaction begin/commit of `pool.begin()` /
`tx.commit()`. -/
inductive Event
  | sql (s : SqlStmt)
  | beginTx
  | commitTx
deriving DecidableEq

/-- Outcome of one `reset_database` call: the returned `Result` (the error
names the failing step), the main schema's tables afterwards, and the ordered
log of events issued to the connection. -/
structure ResetRun where
  res : Except Step Unit
  tables : Tables
  log : List Event

/-- The first `for` loop: `DELETE FROM main.{t}` for each enumerated table,
inside the open transaction.  Returns the transaction's working state. -/
def runDeletes (fail : Step → Bool) :
    List String → Tables → List Event → Except Step Tables × List Event
  | [], ts, log => (.ok ts, log)
  | n :: ns, ts, log =>
    let log := log ++ [.sql (deleteStmt n)]
    if fail (.del n) then (.error (.del n), log)
    else runDeletes fail ns (setRows ts n []) log

/-- The second `for` loop: `INSERT INTO main.{t} SELECT * FROM demo.{t}` for
each enumerated table; fails if the snapshot schema lacks the table. -/
def runInserts (fail : Step → Bool) (demo : Tables) :
    List String → Tables → List Event → Except Step Tables × List Event
  | [], ts, log => (.ok ts, log)
  | n :: ns, ts, log =>
    let log := log ++ [.sql (insertStmt n)]
    if fail (.ins n) then (.error (.ins n), log)
    else if hasTable demo n then
      runInserts fail demo ns (setRows ts n (getRows ts n ++ getRows demo n)) log
    else (.error (.ins n), log)

/-- Model of `async fn reset_database(pool, demo_db_path)`: attach the snapshot,
enumerate the main schema's user tables, and, within one transaction, wipe
then repopulate every enumerated table; afterwards detach and `VACUUM`.
An error before `tx.commit()` succeeds drops the transaction, so the main
tables stay at their pre-reset contents. -/
def reset_database (fail : Step → Bool) (demoPath : String) (demo : Tables)
    (st : Tables) : ResetRun :=
  let log := [Event.sql (attachStmt demoPath)]
  if fail .attach then ⟨.error .attach, st, log⟩ else
  let log := log ++ [Event.sql enumerateStmt]
  if fail .enumerate then ⟨.error .enumerate, st, log⟩ else
  let names := userTableNames st
  let log := log ++ [Event.beginTx]
  if fail .beginTx then ⟨.error .beginTx, st, log⟩ else
  match runDeletes fail names st log with
  | (.error e, log) => ⟨.error e, st, log⟩
  | (.ok ts1, log) =>
    match runInserts fail demo names ts1 log with
    | (.error e, log) => ⟨.error e, st, log⟩
    | (.ok ts2, log) =>
      let log := log ++ [Event.commitTx]
      if fail .commitTx then ⟨.error .commitTx, st, log⟩ else
      let log := log ++ [Event.sql detachStmt]
      if fail .detach then ⟨.error .detach, ts2, log⟩ else
      let log := log ++ [Event.sql vacuumStmt]
      if fail .vacuum then ⟨.error .vacuum, ts2, log⟩ else
      ⟨.ok (), ts2, log⟩

/-! ## Background reset task (`spawn_database_reset_task`, lines 204–222) -/

/-- Model of `Duration::from_secs(15 * 60)`: the fixed tick interval, in seconds. -/
def resetIntervalSecs : Nat := 15 * 60

/-- Observable progress of the spawned loop: ticks elapsed, reset attempts
made, and the errors logged by `tracing::error!`. -/
structure SchedState where
  ticks : Nat
  resets : Nat
  loggedErrors : List Step
deriving DecidableEq

/-- One iteration of the `loop`: await the tick, run `reset_database` once,
and log (never propagate) an error outcome. -/
def sched_step (outcome : Except Step Unit) (s : SchedState) : SchedState :=
  { ticks := s.ticks + 1
    resets := s.resets + 1
    loggedErrors := s.loggedErrors ++ (match outcome with
      | .ok _ => []
      | .error e => [e]) }

/-- The spawned task after `n` ticks, where `outcomes i` is the result of the
reset attempt on tick `i`.  Totality in `n` reflects that no outcome breaks
the loop. -/
def spawn_database_reset_task (outcomes : Nat → Except Step Unit) : Nat → SchedState
  | 0 => ⟨0, 0, []⟩
  | n + 1 => sched_step (outcomes n) (spawn_database_reset_task outcomes n)

/-- Whether `main` spawns the reset task exactly under `if is_demo { ... }`. -/
def mainSpawnsResetTask (env : EnvMap) : Bool := is_demo env

/-! ## Health check (`health_check`, lines 101–106) -/

/-- Model of `async fn health_check() -> Result<Json<serde_json::Value>, StatusCode>`;
the JSON object is a field list, the error type (`StatusCode`) a number. -/
def health_check (now : String) : Except Nat (List (String × String)) :=
  .ok [("status", "healthy"), ("timestamp", now)]

/-! ## Concrete fixtures used by witnesses and counterexamples -/

/-- A tiny main schema with the two user tables of the application. -/
def st0 : Tables := [("categories", [["0", "produce"]]), ("entries", [])]

/-- A matching snapshot schema with different fixture rows. -/
def demo0 : Tables := [("categories", [["0", "dairy"]]), ("entries", [["1", "milk"]])]

/-- Failure oracle for a fully successful run. -/
def noFail : Step → Bool := fun _ => false

/-- Failure oracle that fails the `DELETE` on table `entries`. -/
def failDel : Step → Bool := fun s => s = Step.del "entries"

/-- Failure oracle that fails only the `DETACH`. -/
def failDetachOnly : Step → Bool := fun s => s = Step.detach

/-- Environment with `GL_DEMO=true` and nothing else set. -/
def envDemo : EnvMap := fun v => if v = "GL_DEMO" then some "true" else none

/-- Asset bundle holding only an `index.html` that contains the template token. -/
def assetsW : AssetMap := fun p => if p = "index.html" then some "x__IS_DEMO__y" else none

/-- A constant content-type guesser. -/
def mimeW : String → String := fun _ => "text/html"

/-! ## Lemmas about the `str::replace` model -/

lemma replaceAux_skip (pat rep : List Char) :
    ∀ (l : List Char) (k : Nat),
      replaceAux pat rep l k = replaceAux pat rep (l.drop k) 0 := by
  intro l
  induction l with
  | nil => intro k; cases k <;> rfl
  | cons c cs ih =>
    intro k
    cases k with
    | zero => rfl
    | succ k =>
      show replaceAux pat rep cs k = replaceAux pat rep ((c :: cs).drop (k + 1)) 0
      rw [List.drop_succ_cons]
      exact ih k

lemma replaceAux_cons_zero (pat rep : List Char) (c : Char) (cs : List Char) :
    replaceAux pat rep (c :: cs) 0 =
      if pat ≠ [] ∧ pat <+: c :: cs then
        rep ++ replaceAux pat rep (cs.drop (pat.length - 1)) 0
      else c :: replaceAux pat rep cs 0 := by
  conv_lhs => rw [replaceAux]
  split
  · rw [replaceAux_skip]
  · rfl

/-- A nonempty tail-slice of the pattern that prefixes the output of
`replaceAux` already prefixes its input (the replacement shares no character
with the pattern, so it cannot contribute to such a prefix). -/
lemma replaceAux_pref_inv (pat rep : List Char) (hrep : rep ≠ [])
    (hdisj : ∀ c ∈ rep, c ∉ pat) :
    ∀ (N : Nat) (l : List Char), l.length ≤ N → ∀ i : Nat, pat.drop i ≠ [] →
      pat.drop i <+: replaceAux pat rep l 0 → pat.drop i <+: l := by
  intro N
  induction N with
  | zero =>
    intro l hl i hne hpre
    have hl0 : l = [] := List.length_eq_zero.mp (Nat.le_zero.mp hl)
    subst hl0
    exact absurd (List.prefix_nil.mp hpre) hne
  | succ N ih =>
    intro l hl i hne hpre
    cases l with
    | nil => exact absurd (List.prefix_nil.mp hpre) hne
    | cons c cs =>
      obtain ⟨q0, q', hq⟩ : ∃ q0 q', pat.drop i = q0 :: q' := by
        cases hqq : pat.drop i with
        | nil => exact absurd hqq hne
        | cons a b => exact ⟨a, b, rfl⟩
      rw [replaceAux_cons_zero] at hpre
      by_cases hm : pat ≠ [] ∧ pat <+: c :: cs
      · rw [if_pos hm] at hpre
        obtain ⟨r0, rep', hr⟩ : ∃ r0 rep', rep = r0 :: rep' := by
          cases hrr : rep with
          | nil => exact absurd hrr hrep
          | cons a b => exact ⟨a, b, rfl⟩
        rw [hq, hr, List.cons_append] at hpre
        have h0 := (List.cons_prefix_cons.mp hpre).1
        have hq0 : q0 ∈ pat :=
          List.drop_subset i pat (by rw [hq]; exact List.mem_cons_self q0 q')
        have hr0 : r0 ∈ rep := by rw [hr]; exact List.mem_cons_self r0 rep'
        exact absurd hq0 (h0 ▸ hdisj r0 hr0)
      · rw [if_neg hm] at hpre
        rw [hq] at hpre
        obtain ⟨h0, hq'⟩ := List.cons_prefix_cons.mp hpre
        have hdq : pat.drop (i + 1) = q' := by
          rw [← List.drop_drop 1 i pat, hq, List.drop_one]
          rfl
        by_cases hq'nil : q' = []
        · rw [hq, h0, hq'nil]
          exact List.cons_prefix_cons.mpr ⟨rfl, List.nil_prefix⟩
        · have hcs : cs.length ≤ N := by
            have : cs.length + 1 ≤ N + 1 := by simpa using hl
            omega
          have hrec := ih cs hcs (i + 1) (by rw [hdq]; exact hq'nil)
            (by rw [hdq]; exact hq')
          rw [hq, h0]
          exact List.cons_prefix_cons.mpr ⟨rfl, hdq ▸ hrec⟩

/-- After `replaceAux` the pattern occurs nowhere in the output, provided the
replacement is nonempty and shares no character with the pattern. -/
lemma replaceAux_no_occ (pat rep : List Char) (hpat : pat ≠ []) (hrep : rep ≠ [])
    (hdisj : ∀ c ∈ rep, c ∉ pat) :
    ∀ (N : Nat) (l : List Char), l.length ≤ N →
      ¬ pat <:+: replaceAux pat rep l 0 := by
  intro N
  induction N with
  | zero =>
    intro l hl hinf
    have hl0 : l = [] := List.length_eq_zero.mp (Nat.le_zero.mp hl)
    subst hl0
    exact hpat (List.infix_nil.mp hinf)
  | succ N ih =>
    intro l hl hinf
    cases l with
    | nil => exact hpat (List.infix_nil.mp hinf)
    | cons c cs =>
      by_cases hm : pat ≠ [] ∧ pat <+: c :: cs
      · rw [replaceAux_cons_zero, if_pos hm] at hinf
        obtain ⟨s, t, heq⟩ := hinf
        have hlen : (cs.drop (pat.length - 1)).length ≤ N := by
          have h2 : cs.length + 1 ≤ N + 1 := by simpa using hl
          have h3 : (cs.drop (pat.length - 1)).length = cs.length - (pat.length - 1) :=
            List.length_drop _ _
          omega
        have hs : s <+: rep ++ replaceAux pat rep (cs.drop (pat.length - 1)) 0 :=
          ⟨pat ++ t, by rw [← heq]; simp [List.append_assoc]⟩
        rcases le_or_lt rep.length s.length with hle | hlt
        · have hrs : rep <+: s :=
            List.prefix_of_prefix_length_le (List.prefix_append rep _) hs hle
          obtain ⟨s', rfl⟩ := hrs
          have heq2 : s' ++ (pat ++ t) = replaceAux pat rep (cs.drop (pat.length - 1)) 0 := by
            have h1 : rep ++ (s' ++ (pat ++ t)) =
                rep ++ replaceAux pat rep (cs.drop (pat.length - 1)) 0 := by
              simpa [List.append_assoc] using heq
            exact List.append_cancel_left h1
          exact ih _ hlen ⟨s', t, by rw [List.append_assoc]; exact heq2⟩
        · have hsr : s <+: rep :=
            List.prefix_of_prefix_length_le hs (List.prefix_append rep _) (Nat.le_of_lt hlt)
          obtain ⟨u, hu⟩ := hsr
          have hune : u ≠ [] := by
            intro h
            rw [h, List.append_nil] at hu
            rw [hu] at hlt
            omega
          have heq2 : pat ++ t = u ++ replaceAux pat rep (cs.drop (pat.length - 1)) 0 := by
            have h1 : s ++ (pat ++ t) =
                s ++ (u ++ replaceAux pat rep (cs.drop (pat.length - 1)) 0) := by
              rw [← List.append_assoc, heq, ← hu, List.append_assoc]
            exact List.append_cancel_left h1
          obtain ⟨p0, p', hp⟩ : ∃ p0 p', pat = p0 :: p' := by
            cases hpp : pat with
            | nil => exact absurd hpp hpat
            | cons a b => exact ⟨a, b, rfl⟩
          obtain ⟨u0, u', hu0⟩ : ∃ u0 u', u = u0 :: u' := by
            cases huu : u with
            | nil => exact absurd huu hune
            | cons a b => exact ⟨a, b, rfl⟩
          rw [hp, hu0, List.cons_append, List.cons_append] at heq2
          injection heq2 with h0 _
          have hu0r : u0 ∈ rep := by
            rw [← hu, hu0]
            exact List.mem_append_right s (List.mem_cons_self u0 u')
          have hp0 : p0 ∈ pat := by rw [hp]; exact List.mem_cons_self p0 p'
          exact absurd hp0 (h0 ▸ hdisj u0 hu0r)
      · rw [replaceAux_cons_zero, if_neg hm] at hinf
        rcases List.infix_cons_iff.mp hinf with hpre | hinf'
        · have hpre2 : pat <+: replaceAux pat rep (c :: cs) 0 := by
            rw [replaceAux_cons_zero, if_neg hm]; exact hpre
          have hback := replaceAux_pref_inv pat rep hrep hdisj (N + 1) (c :: cs) hl 0
            (by simpa using hpat) (by simpa using hpre2)
          exact hm ⟨hpat, by simpa using hback⟩
        · exact ih cs (by simp at hl; omega) hinf'

/-- Instantiation to the template token and the rendered demo flag. -/
lemma replaceAll_no_token (template : String) (flag : Bool) :
    ¬ "__IS_DEMO__".data <:+:
        (replaceAll template "__IS_DEMO__" (boolString flag)).data := by
  intro h
  have hx : (replaceAll template "__IS_DEMO__" (boolString flag)).data =
      replaceAux "__IS_DEMO__".data (boolString flag).data template.data 0 := rfl
  rw [hx] at h
  cases flag
  · exact replaceAux_no_occ _ _ (by decide) (by decide) (by decide)
      template.data.length template.data le_rfl h
  · exact replaceAux_no_occ _ _ (by decide) (by decide) (by decide)
      template.data.length template.data le_rfl h

/-! ## Claim theorems: configuration, health check, scheduler -/

/-- The errors among the first `n` reset outcomes, in tick order. -/
def loggedOf (outcomes : Nat → Except Step Unit) (n : Nat) : List Step :=
  (List.range n).filterMap (fun i =>
    match outcomes i with
    | .ok _ => none
    | .error e => some e)

/-- Claim C8: with `DATABASE_URL`, `PORT` and `GL_DEMO` unset, the defaults
are the local SQLite file store `sqlite:grocery.db`, listen port `3001`, and
demo mode off. -/
theorem claim_C8_config_defaults (env : EnvMap)
    (h1 : env "DATABASE_URL" = none) (h2 : env "PORT" = none)
    (h3 : env "GL_DEMO" = none) :
    database_url env = "sqlite:grocery.db" ∧ port env = "3001" ∧
    is_demo env = false := by
  refine ⟨?_, ?_, ?_⟩
  · rw [database_url, h1]; rfl
  · rw [port, h2]; rfl
  · rw [is_demo, h3]; rfl

/-- Witness for C8 at the empty environment. -/
theorem claim_C8_config_defaults_witness :
    ((fun _ => none : EnvMap) "DATABASE_URL" = none) ∧
    ((fun _ => none : EnvMap) "PORT" = none) ∧
    ((fun _ => none : EnvMap) "GL_DEMO" = none) ∧
    (database_url (fun _ => none) = "sqlite:grocery.db" ∧
     port (fun _ => none) = "3001" ∧ is_demo (fun _ => none) = false) :=
  ⟨rfl, rfl, rfl, claim_C8_config_defaults (fun _ => none) rfl rfl rfl⟩

/-- Claim C10: `health_check` always returns `Ok` with a JSON object holding a
`status` and a `timestamp` field; no execution takes the error branch. -/
theorem claim_C10_health_check (now : String) :
    health_check now = .ok [("status", "healthy"), ("timestamp", now)] ∧
    ([("status", "healthy"), ("timestamp", now)].lookup "status" = some "healthy") ∧
    ([("status", "healthy"), ("timestamp", now)].lookup "timestamp" = some now) ∧
    ∀ e : Nat, health_check now ≠ .error e := by
  refine ⟨rfl, rfl, rfl, fun e h => ?_⟩
  exact Except.noConfusion h

/-- Claim C3: however the individual reset attempts turn out, after `n` ticks
the loop has made exactly `n` attempts, has logged exactly the errors among
them, and is still running (it is defined at every tick count). -/
theorem claim_C3_reset_errors_caught (outcomes : Nat → Except Step Unit) (n : Nat) :
    (spawn_database_reset_task outcomes n).ticks = n ∧
    (spawn_database_reset_task outcomes n).resets = n ∧
    (spawn_database_reset_task outcomes n).loggedErrors = loggedOf outcomes n := by
  induction n with
  | zero => exact ⟨rfl, rfl, rfl⟩
  | succ n ih =>
    refine ⟨?_, ?_, ?_⟩
    · simp [spawn_database_reset_task, sched_step, ih.1]
    · simp [spawn_database_reset_task, sched_step, ih.2.1]
    · simp only [spawn_database_reset_task, sched_step, ih.2.2, loggedOf,
        List.range_succ, List.filterMap_append]
      cases h : outcomes n <;> simp [h]

/-- Claim C7: the tick interval is the fixed 15 minutes (900 seconds), the
task makes exactly one reset attempt per tick, and `main` spawns the task
exactly when the demo flag is true. -/
theorem claim_C7_schedule (env : EnvMap) (outcomes : Nat → Except Step Unit)
    (n : Nat) :
    resetIntervalSecs = 15 * 60 ∧
    (mainSpawnsResetTask env = true ↔ is_demo env = true) ∧
    (spawn_database_reset_task outcomes n).resets =
      (spawn_database_reset_task outcomes n).ticks := by
  refine ⟨rfl, Iff.rfl, ?_⟩
  induction n with
  | zero => rfl
  | succ n ih => simp [spawn_database_reset_task, sched_step, ih]

/-! ## Lemmas about the table state -/

lemma setRows_fst (ts : Tables) (n : String) (v : List Row) :
    (setRows ts n v).map Prod.fst = ts.map Prod.fst := by
  induction ts with
  | nil => rfl
  | cons p rest ih =>
    obtain ⟨m, rs⟩ := p
    by_cases h : m = n <;> simp [setRows, h, ih]

lemma getRows_setRows_self {ts : Tables} {n : String} (v : List Row)
    (h : n ∈ ts.map Prod.fst) : getRows (setRows ts n v) n = v := by
  induction ts with
  | nil => simp at h
  | cons p rest ih =>
    obtain ⟨m, rs⟩ := p
    by_cases hm : m = n
    · simp [setRows, getRows, hm]
    · have h' : n ∈ rest.map Prod.fst := by
        simp only [List.map_cons, List.mem_cons] at h
        rcases h with h | h
        · exact absurd h.symm hm
        · exact h
      simp [setRows, getRows, hm, ih h']

lemma getRows_setRows_ne {ts : Tables} {n m : String} (v : List Row) (h : m ≠ n) :
    getRows (setRows ts n v) m = getRows ts m := by
  induction ts with
  | nil => rfl
  | cons p rest ih =>
    obtain ⟨k, rs⟩ := p
    by_cases hk : k = n
    · subst hk
      have hkm : ¬ k = m := fun hh => h hh.symm
      simp [setRows, getRows, hkm]
    · by_cases hkm : k = m <;> simp [setRows, getRows, hk, hkm, h, ih]

/-! ## Lemmas about the reset loops -/

lemma runDeletes_ok_spec (fail : Step → Bool) :
    ∀ (names : List String) (ts : Tables) (log : List Event)
      (ts' : Tables) (log' : List Event),
      runDeletes fail names ts log = (.ok ts', log') →
      ts'.map Prod.fst = ts.map Prod.fst ∧
      (∀ n, n ∈ names → n ∈ ts.map Prod.fst → getRows ts' n = []) ∧
      (∀ n, n ∉ names → getRows ts' n = getRows ts n) ∧
      log' = log ++ names.map (fun n => Event.sql (deleteStmt n)) := by
  intro names
  induction names with
  | nil =>
    intro ts log ts' log' h
    simp only [runDeletes, Prod.mk.injEq] at h
    obtain ⟨h1, h2⟩ := h
    obtain rfl : ts = ts' := by simpa using h1
    refine ⟨rfl, ?_, fun n _ => rfl, by simp [h2.symm]⟩
    intro n hn
    simp at hn
  | cons n ns ih =>
    intro ts log ts' log' h
    by_cases hf : fail (.del n) = true
    · simp [runDeletes, hf] at h
    · rw [runDeletes] at h
      simp only [hf, if_false, Bool.false_eq_true] at h
      obtain ⟨hfst, hmem, hout, hlog⟩ := ih _ _ _ _ h
      refine ⟨?_, ?_, ?_, ?_⟩
      · rw [hfst, setRows_fst]
      · intro m hm hmem'
        rcases List.mem_cons.mp hm with rfl | hm'
        · by_cases hns : m ∈ ns
          · exact hmem m hns (by rw [setRows_fst]; exact hmem')
          · rw [hout m hns, getRows_setRows_self [] hmem']
        · exact hmem m hm' (by rw [setRows_fst]; exact hmem')
      · intro m hm
        simp only [List.mem_cons, not_or] at hm
        rw [hout m hm.2, getRows_setRows_ne [] hm.1]
      · rw [hlog]; simp

lemma runInserts_ok_spec (fail : Step → Bool) (demo : Tables) :
    ∀ (names : List String) (ts : Tables) (log : List Event)
      (ts' : Tables) (log' : List Event),
      runInserts fail demo names ts log = (.ok ts', log') → names.Nodup →
      (∀ n, n ∈ names → n ∈ ts.map Prod.fst) →
      (∀ n, n ∈ names → getRows ts' n = getRows ts n ++ getRows demo n) ∧
      (∀ n, n ∉ names → getRows ts' n = getRows ts n) ∧
      log' = log ++ names.map (fun n => Event.sql (insertStmt n)) := by
  intro names
  induction names with
  | nil =>
    intro ts log ts' log' h _ _
    simp only [runInserts, Prod.mk.injEq] at h
    obtain ⟨h1, h2⟩ := h
    obtain rfl : ts = ts' := by simpa using h1
    refine ⟨?_, fun n _ => rfl, by simp [h2.symm]⟩
    intro n hn
    simp at hn
  | cons n ns ih =>
    intro ts log ts' log' h hnd hsub
    obtain ⟨hn_ns, hnd'⟩ := List.nodup_cons.mp hnd
    by_cases hf : fail (.ins n) = true
    · simp [runInserts, hf] at h
    · by_cases hd : hasTable demo n
      · rw [runInserts] at h
        simp only [hf, if_false, Bool.false_eq_true, hd, if_true] at h
        have hsub' : ∀ m, m ∈ ns →
            m ∈ (setRows ts n (getRows ts n ++ getRows demo n)).map Prod.fst := by
          intro m hm
          rw [setRows_fst]
          exact hsub m (List.mem_cons_of_mem n hm)
        obtain ⟨hins, hout, hlog⟩ := ih _ _ _ _ h hnd' hsub'
        refine ⟨?_, ?_, ?_⟩
        · intro m hm
          rcases List.mem_cons.mp hm with rfl | hm'
          · rw [hout m hn_ns,
              getRows_setRows_self _ (hsub m (List.mem_cons_self m ns))]
          · have hmn : m ≠ n := fun hh => hn_ns (hh ▸ hm')
            rw [hins m hm', getRows_setRows_ne _ hmn]
        · intro m hm
          simp only [List.mem_cons, not_or] at hm
          rw [hout m hm.2, getRows_setRows_ne _ hm.1]
        · rw [hlog]; simp
      · simp [runInserts, hf, hd] at h

lemma runDeletes_log (fail : Step → Bool) :
    ∀ (names : List String) (ts : Tables) (log : List Event),
      ∃ suf, (runDeletes fail names ts log).2 = log ++ suf ∧
        ∀ ev ∈ suf, ∃ n, n ∈ names ∧ ev = Event.sql (deleteStmt n) := by
  intro names
  induction names with
  | nil =>
    intro ts log
    exact ⟨[], by simp [runDeletes], by simp⟩
  | cons n ns ih =>
    intro ts log
    by_cases hf : fail (.del n) = true
    · refine ⟨[Event.sql (deleteStmt n)], by simp [runDeletes, hf], ?_⟩
      intro ev hev
      simp only [List.mem_singleton] at hev
      exact ⟨n, List.mem_cons_self n ns, hev⟩
    · obtain ⟨suf, h1, h2⟩ := ih (setRows ts n []) (log ++ [Event.sql (deleteStmt n)])
      refine ⟨Event.sql (deleteStmt n) :: suf, ?_, ?_⟩
      · rw [runDeletes]
        simp only [hf, if_false, Bool.false_eq_true]
        rw [h1]; simp
      · intro ev hev
        rcases List.mem_cons.mp hev with rfl | hev'
        · exact ⟨n, List.mem_cons_self n ns, rfl⟩
        · obtain ⟨m, hm, hevm⟩ := h2 ev hev'
          exact ⟨m, List.mem_cons_of_mem n hm, hevm⟩

lemma runInserts_log (fail : Step → Bool) (demo : Tables) :
    ∀ (names : List String) (ts : Tables) (log : List Event),
      ∃ suf, (runInserts fail demo names ts log).2 = log ++ suf ∧
        ∀ ev ∈ suf, ∃ n, n ∈ names ∧ ev = Event.sql (insertStmt n) := by
  intro names
  induction names with
  | nil =>
    intro ts log
    exact ⟨[], by simp [runInserts], by simp⟩
  | cons n ns ih =>
    intro ts log
    by_cases hf : fail (.ins n) = true
    · refine ⟨[Event.sql (insertStmt n)], by simp [runInserts, hf], ?_⟩
      intro ev hev
      simp only [List.mem_singleton] at hev
      exact ⟨n, List.mem_cons_self n ns, hev⟩
    · by_cases hd : hasTable demo n
      · obtain ⟨suf, h1, h2⟩ :=
          ih (setRows ts n (getRows ts n ++ getRows demo n))
            (log ++ [Event.sql (insertStmt n)])
        refine ⟨Event.sql (insertStmt n) :: suf, ?_, ?_⟩
        · rw [runInserts]
          simp only [hf, if_false, Bool.false_eq_true, hd, if_true]
          rw [h1]; simp
        · intro ev hev
          rcases List.mem_cons.mp hev with rfl | hev'
          · exact ⟨n, List.mem_cons_self n ns, rfl⟩
          · obtain ⟨m, hm, hevm⟩ := h2 ev hev'
            exact ⟨m, List.mem_cons_of_mem n hm, hevm⟩
      · refine ⟨[Event.sql (insertStmt n)], by simp [runInserts, hf, hd], ?_⟩
        intro ev hev
        simp only [List.mem_singleton] at hev
        exact ⟨n, List.mem_cons_self n ns, hev⟩

/-! ## Distinguishing the issued statements -/

lemma stmt_ne_of_take3 {s₁ s₂ : SqlStmt}
    (h : s₁.text.data.take 3 ≠ s₂.text.data.take 3) : s₁ ≠ s₂ :=
  fun he => h (he ▸ rfl)

lemma deleteStmt_take3 (t : String) :
    (deleteStmt t).text.data.take 3 = ['D', 'E', 'L'] := rfl

lemma insertStmt_take3 (t : String) :
    (insertStmt t).text.data.take 3 = ['I', 'N', 'S'] := rfl

lemma attachStmt_take3 (p : String) :
    (attachStmt p).text.data.take 3 = ['A', 'T', 'T'] := rfl

lemma deleteStmt_ne_attachStmt (t p : String) : deleteStmt t ≠ attachStmt p :=
  stmt_ne_of_take3 (by rw [deleteStmt_take3, attachStmt_take3]; decide)

lemma deleteStmt_ne_enumerateStmt (t : String) : deleteStmt t ≠ enumerateStmt :=
  stmt_ne_of_take3 (by rw [deleteStmt_take3]; decide)

lemma deleteStmt_ne_insertStmt (t m : String) : deleteStmt t ≠ insertStmt m :=
  stmt_ne_of_take3 (by rw [deleteStmt_take3, insertStmt_take3]; decide)

lemma deleteStmt_ne_detachStmt (t : String) : deleteStmt t ≠ detachStmt :=
  stmt_ne_of_take3 (by rw [deleteStmt_take3]; decide)

lemma deleteStmt_ne_vacuumStmt (t : String) : deleteStmt t ≠ vacuumStmt :=
  stmt_ne_of_take3 (by rw [deleteStmt_take3]; decide)

lemma insertStmt_ne_attachStmt (t p : String) : insertStmt t ≠ attachStmt p :=
  stmt_ne_of_take3 (by rw [insertStmt_take3, attachStmt_take3]; decide)

lemma insertStmt_ne_enumerateStmt (t : String) : insertStmt t ≠ enumerateStmt :=
  stmt_ne_of_take3 (by rw [insertStmt_take3]; decide)

lemma insertStmt_ne_detachStmt (t : String) : insertStmt t ≠ detachStmt :=
  stmt_ne_of_take3 (by rw [insertStmt_take3]; decide)

lemma insertStmt_ne_vacuumStmt (t : String) : insertStmt t ≠ vacuumStmt :=
  stmt_ne_of_take3 (by rw [insertStmt_take3]; decide)

lemma detachStmt_ne_deleteStmt (t : String) : detachStmt ≠ deleteStmt t :=
  (deleteStmt_ne_detachStmt t).symm

lemma detachStmt_ne_insertStmt (t : String) : detachStmt ≠ insertStmt t :=
  (insertStmt_ne_detachStmt t).symm

lemma detachStmt_ne_attachStmt (p : String) : detachStmt ≠ attachStmt p :=
  stmt_ne_of_take3 (by rw [attachStmt_take3]; decide)

lemma vacuumStmt_ne_deleteStmt (t : String) : vacuumStmt ≠ deleteStmt t :=
  (deleteStmt_ne_vacuumStmt t).symm

lemma vacuumStmt_ne_insertStmt (t : String) : vacuumStmt ≠ insertStmt t :=
  (insertStmt_ne_vacuumStmt t).symm

lemma vacuumStmt_ne_attachStmt (p : String) : vacuumStmt ≠ attachStmt p :=
  stmt_ne_of_take3 (by rw [attachStmt_take3]; decide)

/-- An event found after the `BEGIN` marker in a log of the form
`pre ++ beginTx :: mid` yields an ordered `[beginTx, ev]` subsequence. -/
lemma sandwich_sublist {b ev : Event} {mid : List Event} (pre : List Event)
    (h : ev ∈ mid) : List.Sublist [b, ev] (pre ++ b :: mid) := by
  have h1 : List.Sublist [ev] mid := List.singleton_sublist.mpr h
  have h2 : List.Sublist [b, ev] (b :: mid) := h1.cons₂ b
  exact h2.trans (List.sublist_append_right pre (b :: mid))

/-! ## Branch analysis of `reset_database` -/

lemma reset_branches (fail : Step → Bool) (dp : String) (demo st : Tables) :
    (fail .attach = true ∧
      reset_database fail dp demo st =
        ⟨.error .attach, st, [Event.sql (attachStmt dp)]⟩) ∨
    (fail .attach = false ∧ fail .enumerate = true ∧
      reset_database fail dp demo st =
        ⟨.error .enumerate, st,
          [Event.sql (attachStmt dp), Event.sql enumerateStmt]⟩) ∨
    (fail .attach = false ∧ fail .enumerate = false ∧ fail .beginTx = true ∧
      reset_database fail dp demo st =
        ⟨.error .beginTx, st,
          [Event.sql (attachStmt dp), Event.sql enumerateStmt, Event.beginTx]⟩) ∨
    (∃ e logD, fail .attach = false ∧ fail .enumerate = false ∧
      fail .beginTx = false ∧
      runDeletes fail (userTableNames st) st
          [Event.sql (attachStmt dp), Event.sql enumerateStmt, Event.beginTx] =
        (.error e, logD) ∧
      reset_database fail dp demo st = ⟨.error e, st, logD⟩) ∨
    (∃ ts1 logD e logI, fail .attach = false ∧ fail .enumerate = false ∧
      fail .beginTx = false ∧
      runDeletes fail (userTableNames st) st
          [Event.sql (attachStmt dp), Event.sql enumerateStmt, Event.beginTx] =
        (.ok ts1, logD) ∧
      runInserts fail demo (userTableNames st) ts1 logD = (.error e, logI) ∧
      reset_database fail dp demo st = ⟨.error e, st, logI⟩) ∨
    (∃ ts1 logD ts2 logI, fail .attach = false ∧ fail .enumerate = false ∧
      fail .beginTx = false ∧
      runDeletes fail (userTableNames st) st
          [Event.sql (attachStmt dp), Event.sql enumerateStmt, Event.beginTx] =
        (.ok ts1, logD) ∧
      runInserts fail demo (userTableNames st) ts1 logD = (.ok ts2, logI) ∧
      ((fail .commitTx = true ∧
          reset_database fail dp demo st =
            ⟨.error .commitTx, st, logI ++ [Event.commitTx]⟩) ∨
       (fail .commitTx = false ∧ fail .detach = true ∧
          reset_database fail dp demo st =
            ⟨.error .detach, ts2, logI ++ [Event.commitTx, Event.sql detachStmt]⟩) ∨
       (fail .commitTx = false ∧ fail .detach = false ∧ fail .vacuum = true ∧
          reset_database fail dp demo st =
            ⟨.error .vacuum, ts2,
              logI ++ [Event.commitTx, Event.sql detachStmt, Event.sql vacuumStmt]⟩) ∨
       (fail .commitTx = false ∧ fail .detach = false ∧ fail .vacuum = false ∧
          reset_database fail dp demo st =
            ⟨.ok (), ts2,
              logI ++ [Event.commitTx, Event.sql detachStmt, Event.sql vacuumStmt]⟩))) := by
  by_cases h1 : fail .attach = true
  · exact Or.inl ⟨h1, by simp [reset_database, h1]⟩
  have h1' : fail .attach = false := by simpa using h1
  by_cases h2 : fail .enumerate = true
  · exact Or.inr (Or.inl ⟨h1', h2, by simp [reset_database, h1', h2]⟩)
  have h2' : fail .enumerate = false := by simpa using h2
  by_cases h3 : fail .beginTx = true
  · exact Or.inr (Or.inr (Or.inl ⟨h1', h2', h3, by simp [reset_database, h1', h2', h3]⟩))
  have h3' : fail .beginTx = false := by simpa using h3
  rcases hD : runDeletes fail (userTableNames st) st
      [Event.sql (attachStmt dp), Event.sql enumerateStmt, Event.beginTx]
    with ⟨resD, logD⟩
  cases resD with
  | error e =>
    refine Or.inr (Or.inr (Or.inr (Or.inl ⟨e, logD, h1', h2', h3', rfl, ?_⟩)))
    simp [reset_database, h1', h2', h3', hD]
  | ok ts1 =>
    rcases hI : runInserts fail demo (userTableNames st) ts1 logD with ⟨resI, logI⟩
    cases resI with
    | error e =>
      refine Or.inr (Or.inr (Or.inr (Or.inr (Or.inl
        ⟨ts1, logD, e, logI, h1', h2', h3', rfl, hI, ?_⟩))))
      simp [reset_database, h1', h2', h3', hD, hI]
    | ok ts2 =>
      refine Or.inr (Or.inr (Or.inr (Or.inr (Or.inr
        ⟨ts1, logD, ts2, logI, h1', h2', h3', rfl, hI, ?_⟩))))
      by_cases h4 : fail .commitTx = true
      · exact Or.inl ⟨h4, by simp [reset_database, h1', h2', h3', hD, hI, h4]⟩
      have h4' : fail .commitTx = false := by simpa using h4
      by_cases h5 : fail .detach = true
      · exact Or.inr (Or.inl ⟨h4', h5,
          by simp [reset_database, h1', h2', h3', hD, hI, h4', h5]⟩)
      have h5' : fail .detach = false := by simpa using h5
      by_cases h6 : fail .vacuum = true
      · exact Or.inr (Or.inr (Or.inl ⟨h4', h5', h6,
          by simp [reset_database, h1', h2', h3', hD, hI, h4', h5', h6]⟩))
      have h6' : fail .vacuum = false := by simpa using h6
      exact Or.inr (Or.inr (Or.inr ⟨h4', h5', h6',
        by simp [reset_database, h1', h2', h3', hD, hI, h4', h5', h6']⟩))

lemma runDeletes_err (fail : Step → Bool) :
    ∀ (names : List String) (ts : Tables) (log : List Event) (e : Step)
      (log' : List Event),
      runDeletes fail names ts log = (.error e, log') →
      ∃ n, n ∈ names ∧ e = .del n := by
  intro names
  induction names with
  | nil => intro ts log e log' h; simp [runDeletes] at h
  | cons n ns ih =>
    intro ts log e log' h
    by_cases hf : fail (.del n) = true
    · simp only [runDeletes, hf, if_true, Prod.mk.injEq] at h
      obtain ⟨h1, _⟩ := h
      exact ⟨n, List.mem_cons_self n ns, by simpa using h1.symm⟩
    · rw [runDeletes] at h
      simp only [hf, if_false, Bool.false_eq_true] at h
      obtain ⟨m, hm, he⟩ := ih _ _ _ _ h
      exact ⟨m, List.mem_cons_of_mem n hm, he⟩

lemma runInserts_err (fail : Step → Bool) (demo : Tables) :
    ∀ (names : List String) (ts : Tables) (log : List Event) (e : Step)
      (log' : List Event),
      runInserts fail demo names ts log = (.error e, log') →
      ∃ n, n ∈ names ∧ e = .ins n := by
  intro names
  induction names with
  | nil => intro ts log e log' h; simp [runInserts] at h
  | cons n ns ih =>
    intro ts log e log' h
    by_cases hf : fail (.ins n) = true
    · simp only [runInserts, hf, if_true, Prod.mk.injEq] at h
      obtain ⟨h1, _⟩ := h
      exact ⟨n, List.mem_cons_self n ns, by simpa using h1.symm⟩
    · by_cases hd : hasTable demo n
      · rw [runInserts] at h
        simp only [hf, if_false, Bool.false_eq_true, hd, if_true] at h
        obtain ⟨m, hm, he⟩ := ih _ _ _ _ h
        exact ⟨m, List.mem_cons_of_mem n hm, he⟩
      · simp only [runInserts, hf, if_false, Bool.false_eq_true, hd,
          Prod.mk.injEq] at h
        obtain ⟨h1, _⟩ := h
        exact ⟨n, List.mem_cons_self n ns, by simpa using h1.symm⟩

/-- The committed reset leaves every enumerated user table with exactly the
snapshot's rows; this covers the success, failed-`DETACH` and failed-`VACUUM`
outcomes, in all of which the transaction has committed. -/
lemma reset_post_tables (fail : Step → Bool) (dp : String) (demo st : Tables)
    (hnd : (st.map Prod.fst).Nodup)
    (h : (reset_database fail dp demo st).res = .ok () ∨
         (reset_database fail dp demo st).res = .error .detach ∨
         (reset_database fail dp demo st).res = .error .vacuum) :
    ∀ n ∈ userTableNames st,
      getRows (reset_database fail dp demo st).tables n = getRows demo n := by
  rcases reset_branches fail dp demo st with
    ⟨_, hr⟩ | ⟨_, _, hr⟩ | ⟨_, _, _, hr⟩ |
    ⟨e, logD, _, _, _, hD, hr⟩ |
    ⟨ts1, logD, e, logI, _, _, _, hD, hI, hr⟩ |
    ⟨ts1, logD, ts2, logI, _, _, _, hD, hI, hsub⟩
  · rw [hr] at h; simp at h
  · rw [hr] at h; simp at h
  · rw [hr] at h; simp at h
  · obtain ⟨n, _, rfl⟩ := runDeletes_err fail _ _ _ _ _ hD
    rw [hr] at h; simp at h
  · obtain ⟨n, _, rfl⟩ := runInserts_err fail demo _ _ _ _ _ hI
    rw [hr] at h; simp at h
  · have hnames_nodup : (userTableNames st).Nodup := hnd.filter _
    have hsubm : ∀ n ∈ userTableNames st, n ∈ st.map Prod.fst :=
      fun n hn => List.mem_of_mem_filter hn
    obtain ⟨hfst, hdel, _, _⟩ := runDeletes_ok_spec fail _ _ _ _ _ hD
    obtain ⟨hins, _, _⟩ := runInserts_ok_spec fail demo _ _ _ _ _ hI hnames_nodup
      (fun n hn => by rw [hfst]; exact hsubm n hn)
    have htab : (reset_database fail dp demo st).tables = ts2 := by
      rcases hsub with ⟨_, hr⟩ | ⟨_, _, hr⟩ | ⟨_, _, _, hr⟩ | ⟨_, _, _, hr⟩
      · rw [hr] at h; simp at h
      · rw [hr]
      · rw [hr]
      · rw [hr]
    intro n hn
    rw [htab, hins n hn, hdel n hn (hsubm n hn)]
    simp

/-- Any transaction-body or post-commit statement found in the log sits after
the `BEGIN` marker. -/
lemma mem_after_begin_sublist {s : SqlStmt} {dp : String} {mid : List Event}
    (hne1 : s ≠ attachStmt dp) (hne2 : s ≠ enumerateStmt)
    (hmem : Event.sql s ∈
      [Event.sql (attachStmt dp), Event.sql enumerateStmt] ++ Event.beginTx :: mid) :
    List.Sublist [Event.beginTx, Event.sql s]
      ([Event.sql (attachStmt dp), Event.sql enumerateStmt] ++ Event.beginTx :: mid) := by
  rcases List.mem_append.mp hmem with h | h
  · simp [hne1, hne2] at h
  · rcases List.mem_cons.mp h with h | h
    · simp at h
    · exact sandwich_sublist _ h

/-- Classification of the events of a full transaction log
`logI = pre ++ BEGIN :: (deletes ++ inserts)`. -/
lemma tx_log_events {st : Tables} {dp : String} {logD logI sufD sufI : List Event}
    (hsufD : logD =
      [Event.sql (attachStmt dp), Event.sql enumerateStmt, Event.beginTx] ++ sufD)
    (hmemD : ∀ ev ∈ sufD, ∃ n, n ∈ userTableNames st ∧ ev = Event.sql (deleteStmt n))
    (hsufI : logI = logD ++ sufI)
    (hmemI : ∀ ev ∈ sufI, ∃ n, n ∈ userTableNames st ∧ ev = Event.sql (insertStmt n))
    {ev : Event} (hmem : ev ∈ logI) :
    ev = Event.sql (attachStmt dp) ∨ ev = Event.sql enumerateStmt ∨
    ev = Event.beginTx ∨
    (∃ t, t ∈ userTableNames st ∧
      (ev = Event.sql (deleteStmt t) ∨ ev = Event.sql (insertStmt t))) := by
  rw [hsufI, hsufD] at hmem
  rcases List.mem_append.mp hmem with h | h
  · rcases List.mem_append.mp h with h | h
    · simp only [List.mem_cons, List.not_mem_nil, or_false] at h
      rcases h with rfl | rfl | rfl
      · exact Or.inl rfl
      · exact Or.inr (Or.inl rfl)
      · exact Or.inr (Or.inr (Or.inl rfl))
    · obtain ⟨n, hn, rfl⟩ := hmemD ev h
      exact Or.inr (Or.inr (Or.inr ⟨n, hn, Or.inl rfl⟩))
  · obtain ⟨n, hn, rfl⟩ := hmemI ev h
    exact Or.inr (Or.inr (Or.inr ⟨n, hn, Or.inr rfl⟩))

/-- Every `DELETE`/`INSERT` statement the reset issues appears after the
transaction's `BEGIN` in the connection log. -/
lemma reset_after_begin (fail : Step → Bool) (dp : String) (demo st : Tables)
    (s : SqlStmt) (hne1 : s ≠ attachStmt dp) (hne2 : s ≠ enumerateStmt)
    (hmem : Event.sql s ∈ (reset_database fail dp demo st).log) :
    List.Sublist [Event.beginTx, Event.sql s]
      (reset_database fail dp demo st).log := by
  rcases reset_branches fail dp demo st with
    ⟨_, hr⟩ | ⟨_, _, hr⟩ | ⟨_, _, _, hr⟩ |
    ⟨e, logD, _, _, _, hD, hr⟩ |
    ⟨ts1, logD, e, logI, _, _, _, hD, hI, hr⟩ |
    ⟨ts1, logD, ts2, logI, _, _, _, hD, hI, hsub⟩
  · have hlog : (reset_database fail dp demo st).log =
        [Event.sql (attachStmt dp)] := by rw [hr]
    rw [hlog] at hmem
    simp [hne1] at hmem
  · have hlog : (reset_database fail dp demo st).log =
        [Event.sql (attachStmt dp), Event.sql enumerateStmt] := by rw [hr]
    rw [hlog] at hmem
    simp [hne1, hne2] at hmem
  · have hlog : (reset_database fail dp demo st).log =
        [Event.sql (attachStmt dp), Event.sql enumerateStmt, Event.beginTx] := by
      rw [hr]
    rw [hlog] at hmem
    simp [hne1, hne2] at hmem
  · obtain ⟨sufD, hsufD, _⟩ := runDeletes_log fail (userTableNames st) st
      [Event.sql (attachStmt dp), Event.sql enumerateStmt, Event.beginTx]
    have hsufD' : logD =
        [Event.sql (attachStmt dp), Event.sql enumerateStmt, Event.beginTx] ++ sufD := by
      have h2 := hsufD; rw [hD] at h2; exact h2
    have hlog : (reset_database fail dp demo st).log = logD := by rw [hr]
    have hshape : logD =
        [Event.sql (attachStmt dp), Event.sql enumerateStmt] ++ Event.beginTx :: sufD := by
      rw [hsufD']; simp
    rw [hlog, hshape] at hmem ⊢
    exact mem_after_begin_sublist hne1 hne2 hmem
  · obtain ⟨sufD, hsufD, _⟩ := runDeletes_log fail (userTableNames st) st
      [Event.sql (attachStmt dp), Event.sql enumerateStmt, Event.beginTx]
    have hsufD' : logD =
        [Event.sql (attachStmt dp), Event.sql enumerateStmt, Event.beginTx] ++ sufD := by
      have h2 := hsufD; rw [hD] at h2; exact h2
    obtain ⟨sufI, hsufI, _⟩ := runInserts_log fail demo (userTableNames st) ts1 logD
    have hsufI' : logI = logD ++ sufI := by
      have h2 := hsufI; rw [hI] at h2; exact h2
    have hlog : (reset_database fail dp demo st).log = logI := by rw [hr]
    have hshape : logI =
        [Event.sql (attachStmt dp), Event.sql enumerateStmt] ++
          Event.beginTx :: (sufD ++ sufI) := by
      rw [hsufI', hsufD']; simp
    rw [hlog, hshape] at hmem ⊢
    exact mem_after_begin_sublist hne1 hne2 hmem
  · obtain ⟨sufD, hsufD, _⟩ := runDeletes_log fail (userTableNames st) st
      [Event.sql (attachStmt dp), Event.sql enumerateStmt, Event.beginTx]
    have hsufD' : logD =
        [Event.sql (attachStmt dp), Event.sql enumerateStmt, Event.beginTx] ++ sufD := by
      have h2 := hsufD; rw [hD] at h2; exact h2
    obtain ⟨sufI, hsufI, _⟩ := runInserts_log fail demo (userTableNames st) ts1 logD
    have hsufI' : logI = logD ++ sufI := by
      have h2 := hsufI; rw [hI] at h2; exact h2
    rcases hsub with ⟨_, hr⟩ | ⟨_, _, hr⟩ | ⟨_, _, _, hr⟩ | ⟨_, _, _, hr⟩
    · have hlog : (reset_database fail dp demo st).log =
          logI ++ [Event.commitTx] := by rw [hr]
      have hshape : logI ++ [Event.commitTx] =
          [Event.sql (attachStmt dp), Event.sql enumerateStmt] ++
            Event.beginTx :: (sufD ++ sufI ++ [Event.commitTx]) := by
        rw [hsufI', hsufD']; simp
      rw [hlog, hshape] at hmem ⊢
      exact mem_after_begin_sublist hne1 hne2 hmem
    · have hlog : (reset_database fail dp demo st).log =
          logI ++ [Event.commitTx, Event.sql detachStmt] := by rw [hr]
      have hshape : logI ++ [Event.commitTx, Event.sql detachStmt] =
          [Event.sql (attachStmt dp), Event.sql enumerateStmt] ++
            Event.beginTx ::
              (sufD ++ sufI ++ [Event.commitTx, Event.sql detachStmt]) := by
        rw [hsufI', hsufD']; simp
      rw [hlog, hshape] at hmem ⊢
      exact mem_after_begin_sublist hne1 hne2 hmem
    · have hlog : (reset_database fail dp demo st).log =
          logI ++ [Event.commitTx, Event.sql detachStmt, Event.sql vacuumStmt] := by
        rw [hr]
      have hshape : logI ++
            [Event.commitTx, Event.sql detachStmt, Event.sql vacuumStmt] =
          [Event.sql (attachStmt dp), Event.sql enumerateStmt] ++
            Event.beginTx ::
              (sufD ++ sufI ++
                [Event.commitTx, Event.sql detachStmt, Event.sql vacuumStmt]) := by
        rw [hsufI', hsufD']; simp
      rw [hlog, hshape] at hmem ⊢
      exact mem_after_begin_sublist hne1 hne2 hmem
    · have hlog : (reset_database fail dp demo st).log =
          logI ++ [Event.commitTx, Event.sql detachStmt, Event.sql vacuumStmt] := by
        rw [hr]
      have hshape : logI ++
            [Event.commitTx, Event.sql detachStmt, Event.sql vacuumStmt] =
          [Event.sql (attachStmt dp), Event.sql enumerateStmt] ++
            Event.beginTx ::
              (sufD ++ sufI ++
                [Event.commitTx, Event.sql detachStmt, Event.sql vacuumStmt]) := by
        rw [hsufI', hsufD']; simp
      rw [hlog, hshape] at hmem ⊢
      exact mem_after_begin_sublist hne1 hne2 hmem

/-- The `DETACH` and `VACUUM` statements appear in the log only after a
successful `COMMIT`. -/
lemma reset_after_commit (fail : Step → Bool) (dp : String) (demo st : Tables)
    (s : SqlStmt) (hs : s = detachStmt ∨ s = vacuumStmt)
    (hmem : Event.sql s ∈ (reset_database fail dp demo st).log) :
    fail .commitTx = false ∧
    List.Sublist [Event.commitTx, Event.sql s]
      (reset_database fail dp demo st).log := by
  have hne1 : s ≠ attachStmt dp := by
    rcases hs with rfl | rfl
    · exact detachStmt_ne_attachStmt dp
    · exact vacuumStmt_ne_attachStmt dp
  have hne2 : s ≠ enumerateStmt := by
    rcases hs with rfl | rfl <;> exact stmt_ne_of_take3 (by decide)
  have hneD : ∀ t, s ≠ deleteStmt t := fun t => by
    rcases hs with rfl | rfl
    · exact detachStmt_ne_deleteStmt t
    · exact vacuumStmt_ne_deleteStmt t
  have hneI : ∀ t, s ≠ insertStmt t := fun t => by
    rcases hs with rfl | rfl
    · exact detachStmt_ne_insertStmt t
    · exact vacuumStmt_ne_insertStmt t
  rcases reset_branches fail dp demo st with
    ⟨_, hr⟩ | ⟨_, _, hr⟩ | ⟨_, _, _, hr⟩ |
    ⟨e, logD, _, _, _, hD, hr⟩ |
    ⟨ts1, logD, e, logI, _, _, _, hD, hI, hr⟩ |
    ⟨ts1, logD, ts2, logI, _, _, _, hD, hI, hsub⟩
  · have hlog : (reset_database fail dp demo st).log =
        [Event.sql (attachStmt dp)] := by rw [hr]
    rw [hlog] at hmem
    simp [hne1] at hmem
  · have hlog : (reset_database fail dp demo st).log =
        [Event.sql (attachStmt dp), Event.sql enumerateStmt] := by rw [hr]
    rw [hlog] at hmem
    simp [hne1, hne2] at hmem
  · have hlog : (reset_database fail dp demo st).log =
        [Event.sql (attachStmt dp), Event.sql enumerateStmt, Event.beginTx] := by
      rw [hr]
    rw [hlog] at hmem
    simp [hne1, hne2] at hmem
  · obtain ⟨sufD, hsufD, hmemD⟩ := runDeletes_log fail (userTableNames st) st
      [Event.sql (attachStmt dp), Event.sql enumerateStmt, Event.beginTx]
    have hsufD' : logD =
        [Event.sql (attachStmt dp), Event.sql enumerateStmt, Event.beginTx] ++ sufD := by
      have h2 := hsufD; rw [hD] at h2; exact h2
    have hnotTx : Event.sql s ∉ logD := by
      intro hin
      rcases tx_log_events hsufD' hmemD (by simp : logD = logD ++ [])
          (fun ev h => absurd h (List.not_mem_nil ev)) hin with
        h | h | h | ⟨t, _, h | h⟩
      · exact hne1 (by simpa using h)
      · exact hne2 (by simpa using h)
      · simp at h
      · exact hneD t (by simpa using h)
      · exact hneI t (by simpa using h)
    have hlog : (reset_database fail dp demo st).log = logD := by rw [hr]
    rw [hlog] at hmem
    exact absurd hmem hnotTx
  · obtain ⟨sufD, hsufD, hmemD⟩ := runDeletes_log fail (userTableNames st) st
      [Event.sql (attachStmt dp), Event.sql enumerateStmt, Event.beginTx]
    have hsufD' : logD =
        [Event.sql (attachStmt dp), Event.sql enumerateStmt, Event.beginTx] ++ sufD := by
      have h2 := hsufD; rw [hD] at h2; exact h2
    obtain ⟨sufI, hsufI, hmemI⟩ := runInserts_log fail demo (userTableNames st) ts1 logD
    have hsufI' : logI = logD ++ sufI := by
      have h2 := hsufI; rw [hI] at h2; exact h2
    have hnotTx : Event.sql s ∉ logI := by
      intro hin
      rcases tx_log_events hsufD' hmemD hsufI' hmemI hin with
        h | h | h | ⟨t, _, h | h⟩
      · exact hne1 (by simpa using h)
      · exact hne2 (by simpa using h)
      · simp at h
      · exact hneD t (by simpa using h)
      · exact hneI t (by simpa using h)
    have hlog : (reset_database fail dp demo st).log = logI := by rw [hr]
    rw [hlog] at hmem
    exact absurd hmem hnotTx
  · obtain ⟨sufD, hsufD, hmemD⟩ := runDeletes_log fail (userTableNames st) st
      [Event.sql (attachStmt dp), Event.sql enumerateStmt, Event.beginTx]
    have hsufD' : logD =
        [Event.sql (attachStmt dp), Event.sql enumerateStmt, Event.beginTx] ++ sufD := by
      have h2 := hsufD; rw [hD] at h2; exact h2
    obtain ⟨sufI, hsufI, hmemI⟩ := runInserts_log fail demo (userTableNames st) ts1 logD
    have hsufI' : logI = logD ++ sufI := by
      have h2 := hsufI; rw [hI] at h2; exact h2
    have hnotTx : Event.sql s ∉ logI := by
      intro hin
      rcases tx_log_events hsufD' hmemD hsufI' hmemI hin with
        h | h | h | ⟨t, _, h | h⟩
      · exact hne1 (by simpa using h)
      · exact hne2 (by simpa using h)
      · simp at h
      · exact hneD t (by simpa using h)
      · exact hneI t (by simpa using h)
    rcases hsub with ⟨_, hr⟩ | ⟨h4, _, hr⟩ | ⟨h4, _, _, hr⟩ | ⟨h4, _, _, hr⟩
    · have hlog : (reset_database fail dp demo st).log =
          logI ++ [Event.commitTx] := by rw [hr]
      rw [hlog] at hmem
      rcases List.mem_append.mp hmem with h | h
      · exact absurd h hnotTx
      · simp at h
    · refine ⟨h4, ?_⟩
      have hlog : (reset_database fail dp demo st).log =
          logI ++ [Event.commitTx, Event.sql detachStmt] := by rw [hr]
      rw [hlog] at hmem ⊢
      rcases List.mem_append.mp hmem with h | h
      · exact absurd h hnotTx
      · rcases List.mem_cons.mp h with h | h
        · simp at h
        · exact sandwich_sublist logI h
    · refine ⟨h4, ?_⟩
      have hlog : (reset_database fail dp demo st).log =
          logI ++ [Event.commitTx, Event.sql detachStmt, Event.sql vacuumStmt] := by
        rw [hr]
      rw [hlog] at hmem ⊢
      rcases List.mem_append.mp hmem with h | h
      · exact absurd h hnotTx
      · rcases List.mem_cons.mp h with h | h
        · simp at h
        · exact sandwich_sublist logI h
    · refine ⟨h4, ?_⟩
      have hlog : (reset_database fail dp demo st).log =
          logI ++ [Event.commitTx, Event.sql detachStmt, Event.sql vacuumStmt] := by
        rw [hr]
      rw [hlog] at hmem ⊢
      rcases List.mem_append.mp hmem with h | h
      · exact absurd h hnotTx
      · rcases List.mem_cons.mp h with h | h
        · simp at h
        · exact sandwich_sublist logI h

/-! ## Claim theorems: static serving -/

/-- Claim C6: whenever `index.html` is served, the body is the embedded
template with the `__IS_DEMO__` token substituted — left to right, all
occurrences — by the string form of the demo flag read at serve time; in
particular no occurrence of the token survives in the served body. -/
theorem claim_C6_index_template (env : EnvMap) (assets : AssetMap)
    (template : String) (h : assets INDEX_HTML = some template) :
    index_html env assets =
      .html (replaceAll template "__IS_DEMO__" (boolString (is_demo env))) ∧
    ¬ "__IS_DEMO__".data <:+:
        (replaceAll template "__IS_DEMO__" (boolString (is_demo env))).data := by
  constructor
  · unfold index_html
    rw [h]
  · exact replaceAll_no_token template (is_demo env)

/-- Witness for C6 at a template containing the token, with `GL_DEMO=true`. -/
theorem claim_C6_index_template_witness :
    (assetsW INDEX_HTML = some "x__IS_DEMO__y") ∧
    (index_html envDemo assetsW =
        .html (replaceAll "x__IS_DEMO__y" "__IS_DEMO__" (boolString (is_demo envDemo))) ∧
      ¬ "__IS_DEMO__".data <:+:
          (replaceAll "x__IS_DEMO__y" "__IS_DEMO__" (boolString (is_demo envDemo))).data) :=
  ⟨rfl, claim_C6_index_template envDemo assetsW "x__IS_DEMO__y" rfl⟩

/-- Counterexample to claim C5 as stated: the path `/index.html` names an
embedded asset, yet the response is not that asset with its guessed content
type — it is the `Html` page with the `__IS_DEMO__` token substituted, so even
the body differs from the asset's contents. -/
theorem claim_C5_cex :
    assetsW (trimLeadingSlashes "/index.html") = some "x__IS_DEMO__y" ∧
    static_handler envDemo assetsW mimeW "/index.html" = .html "xtruey" ∧
    (static_handler envDemo assetsW mimeW "/index.html").bodyText ≠ "x__IS_DEMO__y" ∧
    static_handler envDemo assetsW mimeW "/index.html" ≠
      .asset (mimeW (trimLeadingSlashes "/index.html")) "x__IS_DEMO__y" := by
  refine ⟨rfl, by decide, by decide, by decide⟩

/-- Claim C5 as amended: for a request path that matches no API route, with
`path` the URI path stripped of leading slashes — if `path` is empty or is
exactly `index.html`, the substituted SPA index is served; otherwise an
embedded asset named `path` is served with its guessed content type; a missing
asset yields 404 when `path` contains a dot, and the substituted SPA index
(404 only if the bundle lacks `index.html`) when it does not. -/
theorem claim_C5_fallback (env : EnvMap) (assets : AssetMap)
    (mimeGuess : String → String) (rawPath : String) :
    ((trimLeadingSlashes rawPath = "" ∨ trimLeadingSlashes rawPath = INDEX_HTML) →
      static_handler env assets mimeGuess rawPath = index_html env assets) ∧
    (trimLeadingSlashes rawPath ≠ "" → trimLeadingSlashes rawPath ≠ INDEX_HTML →
      ((∀ c, assets (trimLeadingSlashes rawPath) = some c →
          static_handler env assets mimeGuess rawPath =
            .asset (mimeGuess (trimLeadingSlashes rawPath)) c) ∧
       (assets (trimLeadingSlashes rawPath) = none →
          containsChar (trimLeadingSlashes rawPath) '.' = true →
          static_handler env assets mimeGuess rawPath = .notFound) ∧
       (assets (trimLeadingSlashes rawPath) = none →
          containsChar (trimLeadingSlashes rawPath) '.' = false →
          static_handler env assets mimeGuess rawPath = index_html env assets))) := by
  constructor
  · intro h
    unfold static_handler
    rw [if_pos h]
  · intro h1 h2
    have hcond : ¬(trimLeadingSlashes rawPath = "" ∨
        trimLeadingSlashes rawPath = INDEX_HTML) := by
      rintro (h | h)
      · exact h1 h
      · exact h2 h
    refine ⟨?_, ?_, ?_⟩
    · intro c hc
      unfold static_handler
      rw [if_neg hcond, hc]
    · intro hc hdot
      unfold static_handler
      rw [if_neg hcond, hc]
      simp only [hdot, if_true]
      rfl
    · intro hc hdot
      unfold static_handler
      rw [if_neg hcond, hc]
      simp only [hdot]
      rfl

/-- Witness for the amended C5: a dotted path naming no asset yields 404, and
an existing non-index asset is served with its guessed type. -/
theorem claim_C5_fallback_witness :
    (trimLeadingSlashes "/app.js" ≠ "" ∧ trimLeadingSlashes "/app.js" ≠ INDEX_HTML ∧
      assetsW (trimLeadingSlashes "/app.js") = none ∧
      containsChar (trimLeadingSlashes "/app.js") '.' = true) ∧
    static_handler envDemo assetsW mimeW "/app.js" = .notFound :=
  ⟨⟨by decide, by decide, rfl, by decide⟩,
    ((claim_C5_fallback envDemo assetsW mimeW "/app.js").2
      (by decide) (by decide)).2.1 rfl (by decide)⟩

/-! ## Claim theorems: demo reset -/

/-- Claim C1: all per-table deletes and snapshot copies run between `BEGIN`
and `COMMIT`, and if any delete or copy step fails the transaction aborts:
the main tables are exactly what they were before the reset began. -/
theorem claim_C1_reset_transactional (fail : Step → Bool) (dp : String)
    (demo st : Tables) (t : String) :
    (((reset_database fail dp demo st).res = .error (.del t) ∨
      (reset_database fail dp demo st).res = .error (.ins t)) →
      (reset_database fail dp demo st).tables = st) ∧
    (Event.sql (deleteStmt t) ∈ (reset_database fail dp demo st).log →
      List.Sublist [Event.beginTx, Event.sql (deleteStmt t)]
        (reset_database fail dp demo st).log) ∧
    (Event.sql (insertStmt t) ∈ (reset_database fail dp demo st).log →
      List.Sublist [Event.beginTx, Event.sql (insertStmt t)]
        (reset_database fail dp demo st).log) := by
  refine ⟨?_, ?_, ?_⟩
  · intro h
    rcases reset_branches fail dp demo st with
      ⟨_, hr⟩ | ⟨_, _, hr⟩ | ⟨_, _, _, hr⟩ |
      ⟨e, logD, _, _, _, _, hr⟩ |
      ⟨ts1, logD, e, logI, _, _, _, _, _, hr⟩ |
      ⟨ts1, logD, ts2, logI, _, _, _, _, _, hsub⟩
    · rw [hr]
    · rw [hr]
    · rw [hr]
    · rw [hr]
    · rw [hr]
    · rcases hsub with ⟨_, hr⟩ | ⟨_, _, hr⟩ | ⟨_, _, _, hr⟩ | ⟨_, _, _, hr⟩
      · rw [hr]
      · rw [hr] at h; simp at h
      · rw [hr] at h; simp at h
      · rw [hr] at h; simp at h
  · exact reset_after_begin fail dp demo st (deleteStmt t)
      (deleteStmt_ne_attachStmt t dp) (deleteStmt_ne_enumerateStmt t)
  · exact reset_after_begin fail dp demo st (insertStmt t)
      (insertStmt_ne_attachStmt t dp) (insertStmt_ne_enumerateStmt t)

/-- Witness for C1: a failing `DELETE FROM main.entries` leaves the tables
untouched. -/
theorem claim_C1_reset_transactional_witness :
    ((reset_database failDel "grocery_demo.db" demo0 st0).res =
        .error (.del "entries") ∨
      (reset_database failDel "grocery_demo.db" demo0 st0).res =
        .error (.ins "entries")) ∧
    (reset_database failDel "grocery_demo.db" demo0 st0).tables = st0 :=
  ⟨Or.inl (by decide),
    (claim_C1_reset_transactional failDel "grocery_demo.db" demo0 st0 "entries").1
      (Or.inl (by decide))⟩

/-- Claim C2: after a successful reset, every user table enumerated from the
main schema (engine-internal `sqlite_…` tables excluded) holds exactly the
rows of the corresponding snapshot table. -/
theorem claim_C2_reset_copies_snapshot (fail : Step → Bool) (dp : String)
    (demo st : Tables) (hnd : (st.map Prod.fst).Nodup)
    (hok : (reset_database fail dp demo st).res = .ok ()) :
    ∀ n ∈ userTableNames st,
      getRows (reset_database fail dp demo st).tables n = getRows demo n :=
  reset_post_tables fail dp demo st hnd (Or.inl hok)

/-- Witness for C2 on a concrete pair of schemas. -/
theorem claim_C2_reset_copies_snapshot_witness :
    (st0.map Prod.fst).Nodup ∧
    (reset_database noFail "grocery_demo.db" demo0 st0).res = .ok () ∧
    "entries" ∈ userTableNames st0 ∧
    getRows (reset_database noFail "grocery_demo.db" demo0 st0).tables "entries" =
      getRows demo0 "entries" :=
  ⟨by decide, by decide, by decide,
    claim_C2_reset_copies_snapshot noFail "grocery_demo.db" demo0 st0
      (by decide) (by decide) "entries" (by decide)⟩

/-- Counterexample to claim C4 as stated: the per-table `DELETE` statement the
reset issues embeds the runtime-enumerated table name in its text — the text
varies with the table name — and carries no bound parameter. -/
theorem claim_C4_cex :
    (deleteStmt "entries").text ≠ (deleteStmt "categories").text ∧
    (deleteStmt "entries").binds = [] ∧
    Event.sql (deleteStmt "entries") ∈
      (reset_database noFail "grocery_demo.db" demo0 st0).log := by
  refine ⟨by decide, rfl, by decide⟩

/-- Claim C4 as amended: every statement the reset issues is either the
`ATTACH`, which passes its runtime value (the snapshot path) as a bound
parameter under constant text, one of the fixed-text `sqlite_master`
enumeration, `DETACH` and `VACUUM` statements, or a per-table `DELETE`/`INSERT`
whose text interpolates an enumerated table name and which binds no values. -/
theorem claim_C4_binding_amended (fail : Step → Bool) (dp : String)
    (demo st : Tables) :
    (∀ s, Event.sql s ∈ (reset_database fail dp demo st).log →
      s = attachStmt dp ∨ s = enumerateStmt ∨
      (∃ t, t ∈ userTableNames st ∧ (s = deleteStmt t ∨ s = insertStmt t)) ∨
      s = detachStmt ∨ s = vacuumStmt) ∧
    (∀ p, (attachStmt p).text = "ATTACH DATABASE ? AS demo" ∧
      (attachStmt p).binds = [p]) ∧
    (∀ t, (deleteStmt t).text = "DELETE FROM main." ++ t ∧
      (deleteStmt t).binds = [] ∧
      (insertStmt t).text =
        "INSERT INTO main." ++ t ++ " SELECT * FROM demo." ++ t ∧
      (insertStmt t).binds = []) ∧
    (∃ t₁ t₂, (deleteStmt t₁).text ≠ (deleteStmt t₂).text) := by
  refine ⟨?_, fun p => ⟨rfl, rfl⟩, fun t => ⟨rfl, rfl, rfl, rfl⟩,
    "entries", "categories", by decide⟩
  intro s hmem
  rcases reset_branches fail dp demo st with
    ⟨_, hr⟩ | ⟨_, _, hr⟩ | ⟨_, _, _, hr⟩ |
    ⟨e, logD, _, _, _, hD, hr⟩ |
    ⟨ts1, logD, e, logI, _, _, _, hD, hI, hr⟩ |
    ⟨ts1, logD, ts2, logI, _, _, _, hD, hI, hsub⟩
  · have hlog : (reset_database fail dp demo st).log =
        [Event.sql (attachStmt dp)] := by rw [hr]
    rw [hlog] at hmem
    simp only [List.mem_singleton, Event.sql.injEq] at hmem
    exact Or.inl hmem
  · have hlog : (reset_database fail dp demo st).log =
        [Event.sql (attachStmt dp), Event.sql enumerateStmt] := by rw [hr]
    rw [hlog] at hmem
    simp only [List.mem_cons, List.not_mem_nil, or_false, Event.sql.injEq] at hmem
    rcases hmem with h | h
    · exact Or.inl h
    · exact Or.inr (Or.inl h)
  · have hlog : (reset_database fail dp demo st).log =
        [Event.sql (attachStmt dp), Event.sql enumerateStmt, Event.beginTx] := by
      rw [hr]
    rw [hlog] at hmem
    simp only [List.mem_cons, List.not_mem_nil, or_false] at hmem
    rcases hmem with h | h | h
    · exact Or.inl (by simpa using h)
    · exact Or.inr (Or.inl (by simpa using h))
    · simp at h
  · obtain ⟨sufD, hsufD, hmemD⟩ := runDeletes_log fail (userTableNames st) st
      [Event.sql (attachStmt dp), Event.sql enumerateStmt, Event.beginTx]
    have hsufD' : logD =
        [Event.sql (attachStmt dp), Event.sql enumerateStmt, Event.beginTx] ++ sufD := by
      have h2 := hsufD; rw [hD] at h2; exact h2
    have hlog : (reset_database fail dp demo st).log = logD := by rw [hr]
    rw [hlog] at hmem
    rcases tx_log_events hsufD' hmemD (by simp : logD = logD ++ [])
        (fun ev h => absurd h (List.not_mem_nil ev)) hmem with
      h | h | h | ⟨t, ht, h | h⟩
    · exact Or.inl (by simpa using h)
    · exact Or.inr (Or.inl (by simpa using h))
    · simp at h
    · exact Or.inr (Or.inr (Or.inl ⟨t, ht, Or.inl (by simpa using h)⟩))
    · exact Or.inr (Or.inr (Or.inl ⟨t, ht, Or.inr (by simpa using h)⟩))
  · obtain ⟨sufD, hsufD, hmemD⟩ := runDeletes_log fail (userTableNames st) st
      [Event.sql (attachStmt dp), Event.sql enumerateStmt, Event.beginTx]
    have hsufD' : logD =
        [Event.sql (attachStmt dp), Event.sql enumerateStmt, Event.beginTx] ++ sufD := by
      have h2 := hsufD; rw [hD] at h2; exact h2
    obtain ⟨sufI, hsufI, hmemI⟩ := runInserts_log fail demo (userTableNames st) ts1 logD
    have hsufI' : logI = logD ++ sufI := by
      have h2 := hsufI; rw [hI] at h2; exact h2
    have hlog : (reset_database fail dp demo st).log = logI := by rw [hr]
    rw [hlog] at hmem
    rcases tx_log_events hsufD' hmemD hsufI' hmemI hmem with
      h | h | h | ⟨t, ht, h | h⟩
    · exact Or.inl (by simpa using h)
    · exact Or.inr (Or.inl (by simpa using h))
    · simp at h
    · exact Or.inr (Or.inr (Or.inl ⟨t, ht, Or.inl (by simpa using h)⟩))
    · exact Or.inr (Or.inr (Or.inl ⟨t, ht, Or.inr (by simpa using h)⟩))
  · obtain ⟨sufD, hsufD, hmemD⟩ := runDeletes_log fail (userTableNames st) st
      [Event.sql (attachStmt dp), Event.sql enumerateStmt, Event.beginTx]
    have hsufD' : logD =
        [Event.sql (attachStmt dp), Event.sql enumerateStmt, Event.beginTx] ++ sufD := by
      have h2 := hsufD; rw [hD] at h2; exact h2
    obtain ⟨sufI, hsufI, hmemI⟩ := runInserts_log fail demo (userTableNames st) ts1 logD
    have hsufI' : logI = logD ++ sufI := by
      have h2 := hsufI; rw [hI] at h2; exact h2
    have hIn : Event.sql s ∈ logI →
        s = attachStmt dp ∨ s = enumerateStmt ∨
        (∃ t, t ∈ userTableNames st ∧ (s = deleteStmt t ∨ s = insertStmt t)) ∨
        s = detachStmt ∨ s = vacuumStmt := by
      intro hin
      rcases tx_log_events hsufD' hmemD hsufI' hmemI hin with
        h | h | h | ⟨t, ht, h | h⟩
      · exact Or.inl (by simpa using h)
      · exact Or.inr (Or.inl (by simpa using h))
      · simp at h
      · exact Or.inr (Or.inr (Or.inl ⟨t, ht, Or.inl (by simpa using h)⟩))
      · exact Or.inr (Or.inr (Or.inl ⟨t, ht, Or.inr (by simpa using h)⟩))
    rcases hsub with ⟨_, hr⟩ | ⟨_, _, hr⟩ | ⟨_, _, _, hr⟩ | ⟨_, _, _, hr⟩
    · have hlog : (reset_database fail dp demo st).log =
          logI ++ [Event.commitTx] := by rw [hr]
      rw [hlog] at hmem
      rcases List.mem_append.mp hmem with h | h
      · exact hIn h
      · simp at h
    · have hlog : (reset_database fail dp demo st).log =
          logI ++ [Event.commitTx, Event.sql detachStmt] := by rw [hr]
      rw [hlog] at hmem
      rcases List.mem_append.mp hmem with h | h
      · exact hIn h
      · simp only [List.mem_cons, List.not_mem_nil, or_false] at h
        rcases h with h | h
        · simp at h
        · exact Or.inr (Or.inr (Or.inr (Or.inl (by simpa using h))))
    · have hlog : (reset_database fail dp demo st).log =
          logI ++ [Event.commitTx, Event.sql detachStmt, Event.sql vacuumStmt] := by
        rw [hr]
      rw [hlog] at hmem
      rcases List.mem_append.mp hmem with h | h
      · exact hIn h
      · simp only [List.mem_cons, List.not_mem_nil, or_false] at h
        rcases h with h | h | h
        · simp at h
        · exact Or.inr (Or.inr (Or.inr (Or.inl (by simpa using h))))
        · exact Or.inr (Or.inr (Or.inr (Or.inr (by simpa using h))))
    · have hlog : (reset_database fail dp demo st).log =
          logI ++ [Event.commitTx, Event.sql detachStmt, Event.sql vacuumStmt] := by
        rw [hr]
      rw [hlog] at hmem
      rcases List.mem_append.mp hmem with h | h
      · exact hIn h
      · simp only [List.mem_cons, List.not_mem_nil, or_false] at h
        rcases h with h | h | h
        · simp at h
        · exact Or.inr (Or.inr (Or.inr (Or.inl (by simpa using h))))
        · exact Or.inr (Or.inr (Or.inr (Or.inr (by simpa using h))))

/-- Witness for the amended C4 on a concrete run: the issued
`DELETE FROM main.entries` statement falls under the characterization. -/
theorem claim_C4_binding_amended_witness :
    Event.sql (deleteStmt "entries") ∈
      (reset_database noFail "grocery_demo.db" demo0 st0).log ∧
    (deleteStmt "entries" = attachStmt "grocery_demo.db" ∨
      deleteStmt "entries" = enumerateStmt ∨
      (∃ t, t ∈ userTableNames st0 ∧
        (deleteStmt "entries" = deleteStmt t ∨ deleteStmt "entries" = insertStmt t)) ∨
      deleteStmt "entries" = detachStmt ∨ deleteStmt "entries" = vacuumStmt) :=
  ⟨by decide,
    (claim_C4_binding_amended noFail "grocery_demo.db" demo0 st0).1
      (deleteStmt "entries") (by decide)⟩

/-- Claim C9: `DETACH` and `VACUUM` are issued only after the transaction's
`COMMIT` succeeded, and when detaching or compacting fails the committed
deletes and copies remain in effect: the enumerated tables hold the snapshot's
rows. -/
theorem claim_C9_post_commit (fail : Step → Bool) (dp : String)
    (demo st : Tables) (hnd : (st.map Prod.fst).Nodup) :
    (Event.sql detachStmt ∈ (reset_database fail dp demo st).log →
      fail .commitTx = false ∧
      List.Sublist [Event.commitTx, Event.sql detachStmt]
        (reset_database fail dp demo st).log) ∧
    (Event.sql vacuumStmt ∈ (reset_database fail dp demo st).log →
      fail .commitTx = false ∧
      List.Sublist [Event.commitTx, Event.sql vacuumStmt]
        (reset_database fail dp demo st).log) ∧
    (((reset_database fail dp demo st).res = .error .detach ∨
      (reset_database fail dp demo st).res = .error .vacuum) →
      ∀ n ∈ userTableNames st,
        getRows (reset_database fail dp demo st).tables n = getRows demo n) :=
  ⟨fun hmem => reset_after_commit fail dp demo st detachStmt (Or.inl rfl) hmem,
   fun hmem => reset_after_commit fail dp demo st vacuumStmt (Or.inr rfl) hmem,
   fun h => reset_post_tables fail dp demo st hnd (Or.inr h)⟩

/-- Witness for C9: with only the `DETACH` failing, the run errors but the
tables already hold the snapshot contents. -/
theorem claim_C9_post_commit_witness :
    (st0.map Prod.fst).Nodup ∧
    ((reset_database failDetachOnly "grocery_demo.db" demo0 st0).res =
        .error .detach ∨
      (reset_database failDetachOnly "grocery_demo.db" demo0 st0).res =
        .error .vacuum) ∧
    "entries" ∈ userTableNames st0 ∧
    getRows (reset_database failDetachOnly "grocery_demo.db" demo0 st0).tables
        "entries" =
      getRows demo0 "entries" :=
  ⟨by decide, Or.inl (by decide), by decide,
    (claim_C9_post_commit failDetachOnly "grocery_demo.db" demo0 st0
        (by decide)).2.2 (Or.inl (by decide)) "entries" (by decide)⟩

end Gl
